import Mathlib

/-!
Verification of the medal leaderboard poller (`src/main.rs`).

The program polls a feed of award records, tallies medals per country
(`create_table`), ranks countries by (gold, silver, bronze) descending,
takes the top five names as a snapshot, and prints the snapshot when it
differs from the previous cycle's.

The embedding below translates the Rust source into Lean: `Medal` and
`MedalType` mirror the `Medal` struct and `Type` enum, `create_table`
mirrors the tally-and-rank function, and `poll_cycle` mirrors the body of
`main`'s loop.  The Rust `HashMap`'s iteration order is unspecified, so
`create_table` takes it as an explicit parameter `order`; theorems
hypothesise that `order` is a permutation of the distinct countries in the
input, which is exactly the key set of the `HashMap`.
-/

/-- Mirrors the Rust enum `Type` (gold / silver / bronze medal classes).
Named `MedalType` because `Type` is taken in Lean. -/
inductive MedalType where
  | Gold
  | Silver
  | Bronze
deriving DecidableEq, Repr

/-- Mirrors the Rust struct `Medal { r#type: Type, country: String }`. -/
structure Medal where
  type : MedalType
  country : String
deriving DecidableEq, Repr

/-- A raw award as it appears in the fetched JSON, before extraction:
the `medalType` string and the resolved participant country name. -/
structure RawAward where
  medalType : String
  country : String
deriving DecidableEq, Repr

/-- The `match award["medalType"].as_str().unwrap() { ... }` inside
`fetch_medals`: recognised strings map to the enum, anything else hits
`panic!()`, modelled as `Except.error ()`. -/
def medal_type_of (s : String) : Except Unit MedalType :=
  if s = "GOLD" then Except.ok MedalType.Gold
  else if s = "SILVER" then Except.ok MedalType.Silver
  else if s = "BRONZE" then Except.ok MedalType.Bronze
  else Except.error ()

/-- The extraction loop of `fetch_medals`: builds the `Medal` list from the
raw awards, aborting (panic, modelled as `Except.error`) on the first award
whose medal-type string is unrecognised. -/
def fetch_medals : List RawAward → Except Unit (List Medal)
  | [] => Except.ok []
  | a :: rest =>
    match medal_type_of a.medalType with
    | Except.error e => Except.error e
    | Except.ok t =>
      match fetch_medals rest with
      | Except.error e => Except.error e
      | Except.ok ms => Except.ok ({ type := t, country := a.country } :: ms)

/-- The medals of one country, in input order: the `by_country` entry built
by pushing each medal onto its country's vector. -/
def country_medals (medals : List Medal) (c : String) : List Medal :=
  medals.filter (fun m => m.country = c)

/-- One row of the table: `(country, #gold, #silver, #bronze)`, as pushed
onto `countries` in `create_table`. -/
def rowFor (medals : List Medal) (c : String) : String × Nat × Nat × Nat :=
  (c,
   ((country_medals medals c).filter (fun m => m.type = MedalType.Gold)).length,
   ((country_medals medals c).filter (fun m => m.type = MedalType.Silver)).length,
   ((country_medals medals c).filter (fun m => m.type = MedalType.Bronze)).length)

/-- Rust's lexicographic `Ord` on the `(usize, usize, usize)` sort key used
by `sort_by_key(|elem| (elem.1, elem.2, elem.3))`. -/
def keyLe (a b : Nat × Nat × Nat) : Prop :=
  a.1 < b.1 ∨ (a.1 = b.1 ∧ (a.2.1 < b.2.1 ∨ (a.2.1 = b.2.1 ∧ a.2.2 ≤ b.2.2)))

instance : DecidableRel keyLe := fun a b => by
  unfold keyLe
  infer_instance

/-- The sort key of a row: its `(gold, silver, bronze)` triple. -/
def medalKey (r : String × Nat × Nat × Nat) : Nat × Nat × Nat :=
  (r.2.1, r.2.2.1, r.2.2.2)

/-- Row comparison used by `sort_by_key`: compare the count triples. -/
def rowLe (a b : String × Nat × Nat × Nat) : Prop :=
  keyLe (medalKey a) (medalKey b)

instance : DecidableRel rowLe := fun a b => by
  unfold rowLe
  infer_instance

/-- `create_table`: group the medals by country (`order` is the `HashMap`'s
iteration order over the distinct countries), build each country's count
row, stably sort ascending by the `(gold, silver, bronze)` key, and
reverse.  Rust's `sort_by_key` is a stable sort; `List.insertionSort` is
stable as well. -/
def create_table (order : List String) (medals : List Medal) :
    List (String × Nat × Nat × Nat) :=
  (List.insertionSort rowLe (order.map (fun c => rowFor medals c))).reverse

/-- The distinct countries of the input, i.e. the key set of `by_country`. -/
def countryKeys (medals : List Medal) : List String :=
  (medals.map Medal.country).dedup

/-- The `top5` snapshot built in `main`:
`table.iter().take(5).map(|e| e.0.clone())`. -/
def top5 (order : List String) (medals : List Medal) : List String :=
  ((create_table order medals).take 5).map (fun e => e.1)

/-- The change test of `main`: `top5 != last_top5`. -/
def changed (cur last : Option (List String)) : Bool :=
  decide (cur ≠ last)

/-- One iteration of `main`'s loop, given the previous snapshot and the
result of `fetch_medals`.  The Rust code runs `fetch_medals().unwrap()`, so
a failed fetch panics the process: modelled by propagating the error, so no
successor state exists.  On success it returns the stored snapshot
(`last_top5 = top5`, unconditional) and whether the snapshot was printed. -/
def poll_cycle (order : List String) (last_top5 : Option (List String))
    (fetched : Except Unit (List Medal)) :
    Except Unit (Option (List String) × Bool) :=
  match fetched with
  | Except.error e => Except.error e
  | Except.ok medals =>
    let cur := some (top5 order medals)
    Except.ok (cur, changed cur last_top5)

/-- Specification-side count: the number of input records of entrant `c`
with medal class `t`. -/
def countClass (medals : List Medal) (c : String) (t : MedalType) : Nat :=
  (medals.filter (fun m => m.country = c ∧ m.type = t)).length

/-! ### Order-relation facts for the sort key -/

lemma keyLe_total (a b : Nat × Nat × Nat) : keyLe a b ∨ keyLe b a := by
  unfold keyLe
  omega

lemma keyLe_trans (a b c : Nat × Nat × Nat) (h1 : keyLe a b) (h2 : keyLe b c) :
    keyLe a c := by
  unfold keyLe at h1 h2 ⊢
  omega

lemma keyLe_antisymm (a b : Nat × Nat × Nat) (h1 : keyLe a b) (h2 : keyLe b a) :
    a = b := by
  rcases a with ⟨a1, a2, a3⟩
  rcases b with ⟨b1, b2, b3⟩
  simp only [keyLe] at h1 h2
  simp only [Prod.mk.injEq]
  omega

instance : IsTotal (Nat × Nat × Nat) keyLe := ⟨keyLe_total⟩

instance : IsTrans (Nat × Nat × Nat) keyLe := ⟨keyLe_trans⟩

instance : IsAntisymm (Nat × Nat × Nat) keyLe := ⟨keyLe_antisymm⟩

instance : IsTotal (String × Nat × Nat × Nat) rowLe :=
  ⟨fun a b => keyLe_total (medalKey a) (medalKey b)⟩

instance : IsTrans (String × Nat × Nat × Nat) rowLe :=
  ⟨fun a b c => keyLe_trans (medalKey a) (medalKey b) (medalKey c)⟩

/-! ### Basic structure of `create_table` -/

lemma create_table_perm (order : List String) (medals : List Medal) :
    (create_table order medals).Perm (order.map (fun c => rowFor medals c)) := by
  unfold create_table
  exact (List.reverse_perm _).trans (List.perm_insertionSort _ _)

lemma mem_create_table {order : List String} {medals : List Medal}
    {row : String × Nat × Nat × Nat} :
    row ∈ create_table order medals ↔ row ∈ order.map (fun c => rowFor medals c) :=
  (create_table_perm order medals).mem_iff

lemma create_table_sorted (order : List String) (medals : List Medal) :
    (create_table order medals).Pairwise (fun a b => rowLe b a) := by
  unfold create_table
  rw [List.pairwise_reverse]
  exact List.sorted_insertionSort rowLe _

/-! ### Counting lemmas -/

/-- A country's three per-class counts partition its medal list. -/
lemma medals_split (l : List Medal) :
    (l.filter (fun m => m.type = MedalType.Gold)).length
      + (l.filter (fun m => m.type = MedalType.Silver)).length
      + (l.filter (fun m => m.type = MedalType.Bronze)).length = l.length := by
  induction l with
  | nil => simp
  | cons m l ih =>
    rcases m with ⟨t, c⟩
    cases t <;> simp [List.filter_cons] <;> omega

/-- Filtering by country then by class counts the records with both. -/
lemma filter_class_count (medals : List Medal) (c : String) (t : MedalType) :
    ((medals.filter (fun m => m.country = c)).filter
        (fun m => m.type = t)).length
      = countClass medals c t := by
  unfold countClass
  induction medals with
  | nil => simp
  | cons m l ih =>
    by_cases h1 : m.country = c <;> by_cases h2 : m.type = t <;>
      simp [List.filter_cons, h1, h2, ih, Bool.and_comm]

lemma sum_map_add_nat {α : Type} (f g : α → Nat) (l : List α) :
    (l.map (fun x => f x + g x)).sum = (l.map f).sum + (l.map g).sum := by
  induction l with
  | nil => simp
  | cons a l ih => simp [ih]; omega

/-- Over a duplicate-free key list containing `x`, the indicator of `x`
sums to one. -/
lemma sum_indicator_one (ks : List String) (x : String) (hnd : ks.Nodup)
    (hx : x ∈ ks) :
    (ks.map (fun c => if x = c then 1 else 0)).sum = 1 := by
  induction ks with
  | nil => cases hx
  | cons k ks ih =>
    rcases List.mem_cons.mp hx with h | h
    · subst h
      have hnotin : x ∉ ks := (List.nodup_cons.mp hnd).1
      have hzero : (ks.map (fun c => if x = c then 1 else 0)).sum = 0 := by
        apply List.sum_eq_zero
        intro n hn
        rcases List.mem_map.mp hn with ⟨c, hc, rfl⟩
        simp only [ite_eq_right_iff]
        intro he
        exact absurd (he ▸ hc) hnotin
      simp [hzero]
    · have hxk : x ≠ k := by
        intro he
        exact absurd (he ▸ h) (List.nodup_cons.mp hnd).1
      simp [hxk, ih (List.nodup_cons.mp hnd).2 h]

/-- Grouping a medal list by a duplicate-free list of keys covering every
record's country partitions it: the group sizes sum to the total. -/
lemma sum_group_lengths (medals : List Medal) (ks : List String)
    (hnd : ks.Nodup) (hcov : ∀ m ∈ medals, m.country ∈ ks) :
    (ks.map (fun c => (medals.filter (fun m => m.country = c)).length)).sum
      = medals.length := by
  induction medals with
  | nil => simp
  | cons m l ih =>
    have hstep : (ks.map (fun c =>
        ((m :: l).filter (fun m' => m'.country = c)).length))
        = ks.map (fun c => (if m.country = c then 1 else 0)
            + (l.filter (fun m' => m'.country = c)).length) := by
      apply List.map_congr_left
      intro c _
      by_cases h : m.country = c <;> simp [List.filter_cons, h] <;> omega
    rw [hstep, sum_map_add_nat,
      sum_indicator_one ks m.country hnd (hcov m (List.mem_cons_self m l)),
      ih (fun m' hm' => hcov m' (List.mem_cons_of_mem m hm'))]
    simp
    omega

/-- The spec's worked example input: records
`[(Gold, "A"), (Gold, "B"), (Silver, "A"), (Gold, "A")]`. -/
def exMedals : List Medal :=
  [⟨MedalType.Gold, "A"⟩, ⟨MedalType.Gold, "B"⟩,
   ⟨MedalType.Silver, "A"⟩, ⟨MedalType.Gold, "A"⟩]

/-- C1: every row of `create_table` carries exactly the per-class record
counts of its entrant, and the count fields over all rows sum to the total
number of input records. -/
theorem create_table_tally_correct (medals : List Medal) (order : List String)
    (horder : order.Perm (countryKeys medals)) :
    (∀ row ∈ create_table order medals,
        row.2.1 = countClass medals row.1 MedalType.Gold ∧
        row.2.2.1 = countClass medals row.1 MedalType.Silver ∧
        row.2.2.2 = countClass medals row.1 MedalType.Bronze) ∧
    ((create_table order medals).map (fun r => r.2.1 + r.2.2.1 + r.2.2.2)).sum
      = medals.length := by
  constructor
  · intro row hrow
    rcases List.mem_map.mp (mem_create_table.mp hrow) with ⟨c, hc, rfl⟩
    refine ⟨?_, ?_, ?_⟩
    · simpa [rowFor, country_medals] using
        filter_class_count medals c MedalType.Gold
    · simpa [rowFor, country_medals] using
        filter_class_count medals c MedalType.Silver
    · simpa [rowFor, country_medals] using
        filter_class_count medals c MedalType.Bronze
  · rw [((create_table_perm order medals).map
      (fun r => r.2.1 + r.2.2.1 + r.2.2.2)).sum_eq, List.map_map]
    have heq : ((fun r : String × Nat × Nat × Nat =>
        r.2.1 + r.2.2.1 + r.2.2.2) ∘ fun c => rowFor medals c)
        = fun c => (country_medals medals c).length := by
      funext c
      simpa [rowFor] using medals_split (country_medals medals c)
    rw [heq, (horder.map (fun c => (country_medals medals c).length)).sum_eq]
    simpa [country_medals, countryKeys] using
      sum_group_lengths medals (countryKeys medals)
        (List.nodup_dedup _)
        (fun m hm => List.mem_dedup.mpr (List.mem_map_of_mem _ hm))

/-- Witness for C1 at the spec's example input. -/
theorem create_table_tally_correct_witness :
    (["A", "B"] : List String).Perm (countryKeys exMedals) ∧
    ((create_table ["A", "B"] exMedals).map
        (fun r => r.2.1 + r.2.2.1 + r.2.2.2)).sum = exMedals.length :=
  ⟨by decide,
   (create_table_tally_correct exMedals ["A", "B"] (by decide)).2⟩

/-- C2: adjacent rows of `create_table` are descending: each row's
`(gold, silver, bronze)` triple is greater than or equal to its successor's
under lexicographic precedence (gold first), never less. -/
theorem create_table_adjacent_desc (medals : List Medal) (order : List String) :
    List.Chain' (fun a b => rowLe b a) (create_table order medals) :=
  (create_table_sorted order medals).chain'

/-- C10: `create_table` lists exactly one row per distinct country of the
input (its name column is a permutation of the duplicate-free country
list), and every row's three counts sum to at least one. -/
theorem create_table_rows_countries (medals : List Medal) (order : List String)
    (horder : order.Perm (countryKeys medals)) :
    ((create_table order medals).map (fun r => r.1)).Perm (countryKeys medals) ∧
    ∀ row ∈ create_table order medals,
      1 ≤ row.2.1 + row.2.2.1 + row.2.2.2 := by
  constructor
  · have h1 := (create_table_perm order medals).map
      (fun r : String × Nat × Nat × Nat => r.1)
    rw [List.map_map] at h1
    have h2 : ((fun r : String × Nat × Nat × Nat => r.1)
        ∘ fun c => rowFor medals c) = id := funext fun c => rfl
    rw [h2, List.map_id] at h1
    exact h1.trans horder
  · intro row hrow
    rcases List.mem_map.mp (mem_create_table.mp hrow) with ⟨c, hc, rfl⟩
    have hcc : c ∈ countryKeys medals := horder.subset hc
    rcases List.mem_map.mp (List.mem_dedup.mp hcc) with ⟨m, hm, hmc⟩
    have hmem : m ∈ country_medals medals c := by
      simp [country_medals, List.mem_filter, hm, hmc]
    have hpos : 0 < (country_medals medals c).length :=
      List.length_pos_of_mem hmem
    have hsplit := medals_split (country_medals medals c)
    simp only [rowFor]
    omega

/-- Witness for C10 at the spec's example input. -/
theorem create_table_rows_countries_witness :
    (["A", "B"] : List String).Perm (countryKeys exMedals) ∧
    ∀ row ∈ create_table ["A", "B"] exMedals,
      1 ≤ row.2.1 + row.2.2.1 + row.2.2.2 :=
  ⟨by decide,
   (create_table_rows_countries exMedals ["A", "B"] (by decide)).2⟩

/-- C7: the snapshot is the name column of the ranked table truncated to
its first five entries, so its length is the smaller of five and the number
of distinct countries. -/
theorem top5_snapshot_spec (medals : List Medal) (order : List String)
    (horder : order.Perm (countryKeys medals)) :
    top5 order medals = ((create_table order medals).map (fun r => r.1)).take 5 ∧
    (top5 order medals).length = min 5 (countryKeys medals).length := by
  constructor
  · unfold top5
    rw [← List.map_take]
  · unfold top5
    rw [List.length_map, List.length_take]
    congr 1
    rw [(create_table_perm order medals).length_eq, List.length_map,
      horder.length_eq]

/-- Witness for C7 at the spec's example input. -/
theorem top5_snapshot_spec_witness :
    (["A", "B"] : List String).Perm (countryKeys exMedals) ∧
    (top5 ["A", "B"] exMedals
        = ((create_table ["A", "B"] exMedals).map (fun r => r.1)).take 5 ∧
      (top5 ["A", "B"] exMedals).length = min 5 (countryKeys exMedals).length) :=
  ⟨by decide, top5_snapshot_spec exMedals ["A", "B"] (by decide)⟩

/-- C4: the change test reports no change exactly when the previous
snapshot equals the current one as a sequence, and a `none` previous
snapshot (first cycle) always reports a change. -/
theorem changed_iff_sequences_differ (cur : List String)
    (prev : Option (List String)) :
    (changed (some cur) prev = false ↔ prev = some cur) ∧
    changed (some cur) none = true := by
  constructor
  · unfold changed
    rw [decide_eq_false_iff_not, not_ne_iff]
    exact eq_comm
  · simp [changed]

/-- C5: the loop body calls `fetch_medals().unwrap()`, so a failed fetch
panics the process instead of abandoning the cycle: the modelled cycle
propagates the error and produces no successor state. -/
theorem poll_cycle_panics_on_fetch_failure :
    poll_cycle ["A"] (some ["A"]) (Except.error ()) = Except.error () := rfl

/-- C6: a successful cycle always stores the current snapshot as the new
previous snapshot, whether or not it was emitted. -/
theorem poll_cycle_stores_snapshot (order : List String)
    (last : Option (List String)) (medals : List Medal) :
    ∃ emitted, poll_cycle order last (Except.ok medals)
      = Except.ok (some (top5 order medals), emitted) :=
  ⟨changed (some (top5 order medals)) last, rfl⟩

/-- C8: if two cycles produce the same top-five name sequence, the second
cycle emits nothing, regardless of the underlying medal counts. -/
theorem no_emission_when_names_unchanged (o1 o2 : List String)
    (m1 m2 : List Medal) (h : top5 o1 m1 = top5 o2 m2) :
    poll_cycle o1 (some (top5 o2 m2)) (Except.ok m1)
      = Except.ok (some (top5 o1 m1), false) := by
  simp [poll_cycle, changed, h]

/-- Witness for C8: one country gains a silver medal between the cycles,
the name sequence is unchanged, and nothing is emitted. -/
theorem no_emission_when_names_unchanged_witness :
    top5 ["A"] [⟨MedalType.Gold, "A"⟩, ⟨MedalType.Silver, "A"⟩]
        = top5 ["A"] [⟨MedalType.Gold, "A"⟩] ∧
    poll_cycle ["A"] (some (top5 ["A"] [⟨MedalType.Gold, "A"⟩]))
        (Except.ok [⟨MedalType.Gold, "A"⟩, ⟨MedalType.Silver, "A"⟩])
      = Except.ok
          (some (top5 ["A"] [⟨MedalType.Gold, "A"⟩, ⟨MedalType.Silver, "A"⟩]),
           false) :=
  ⟨by decide,
   no_emission_when_names_unchanged ["A"] ["A"] _ _ (by decide)⟩

/-- C9: an award whose medal-type string is not one of `GOLD`, `SILVER`,
`BRONZE` makes extraction fail fatally, so the record never reaches the
tally stage. -/
theorem fetch_medals_rejects_unknown_class (raws : List RawAward)
    (h : ∃ a ∈ raws, a.medalType ≠ "GOLD" ∧ a.medalType ≠ "SILVER" ∧
      a.medalType ≠ "BRONZE") :
    fetch_medals raws = Except.error () := by
  induction raws with
  | nil =>
    rcases h with ⟨a, ha, _⟩
    cases ha
  | cons a rest ih =>
    rcases h with ⟨b, hb, hbad⟩
    rcases List.mem_cons.mp hb with rfl | hbrest
    · have hmt : medal_type_of b.medalType = Except.error () := by
        simp [medal_type_of, hbad.1, hbad.2.1, hbad.2.2]
      simp [fetch_medals, hmt]
    · have hrest : fetch_medals rest = Except.error () := ih ⟨b, hbrest, hbad⟩
      cases hmt : medal_type_of a.medalType with
      | error e =>
        cases e
        simp [fetch_medals, hmt]
      | ok t => simp [fetch_medals, hmt, hrest]

/-- Witness for C9: a `PLATINUM` award is rejected. -/
theorem fetch_medals_rejects_unknown_class_witness :
    (∃ a ∈ [(⟨"PLATINUM", "X"⟩ : RawAward)],
        a.medalType ≠ "GOLD" ∧ a.medalType ≠ "SILVER" ∧
        a.medalType ≠ "BRONZE") ∧
    fetch_medals [(⟨"PLATINUM", "X"⟩ : RawAward)] = Except.error () :=
  ⟨by decide,
   fetch_medals_rejects_unknown_class [⟨"PLATINUM", "X"⟩] (by decide)⟩

/-- Two entrants with identical `(1, 0, 0)` triples: a tie. -/
def tieMedals : List Medal :=
  [⟨MedalType.Gold, "A"⟩, ⟨MedalType.Gold, "B"⟩]

/-- Counterexample to C3 as stated: the `HashMap` iteration order is
unspecified and the stable sort preserves it among tied entrants, so two
runs of `create_table` on the same records — both with legitimate iteration
orders over the same key set — produce differently ordered output. -/
theorem create_table_tie_order_not_deterministic :
    (["A", "B"] : List String).Perm (countryKeys tieMedals) ∧
    (["B", "A"] : List String).Perm (countryKeys tieMedals) ∧
    create_table ["A", "B"] tieMedals ≠ create_table ["B", "A"] tieMedals := by
  decide

/-- Among rows, equal key sequences plus duplicate-free keys plus being a
permutation forces list equality. -/
lemma eq_of_perm_of_medalKey_eq {l1 l2 : List (String × Nat × Nat × Nat)}
    (hp : l1.Perm l2) (hk : l1.map medalKey = l2.map medalKey)
    (hnd : (l1.map medalKey).Nodup) : l1 = l2 := by
  induction l1 generalizing l2 with
  | nil =>
    cases l2 with
    | nil => rfl
    | cons b t2 => exact absurd hp.length_eq (by simp)
  | cons a t1 ih =>
    cases l2 with
    | nil => exact absurd hp.length_eq (by simp)
    | cons b t2 =>
      rw [List.map_cons, List.map_cons] at hk
      injection hk with hkey htail
      by_cases hab : a = b
      · subst hab
        have hnd' : (t1.map medalKey).Nodup := by
          rw [List.map_cons] at hnd
          exact (List.nodup_cons.mp hnd).2
        rw [ih hp.cons_inv htail hnd']
      · exfalso
        have ha2 : a ∈ b :: t2 := hp.subset (List.mem_cons_self a t1)
        have hat2 : a ∈ t2 := (List.mem_cons.mp ha2).resolve_left hab
        have hmem : medalKey a ∈ t2.map medalKey := List.mem_map_of_mem _ hat2
        rw [List.map_cons] at hnd
        rw [htail] at hnd
        exact (List.nodup_cons.mp hnd).1 hmem

/-- C3 (amended): for any two iteration orders over the same key set, the
two `create_table` outputs contain the same rows (a permutation) and carry
identical ordered sequences of `(gold, silver, bronze)` triples; when no
two entrants' triples coincide the outputs are identical.  Only the
relative order of tied entrants can differ between runs. -/
theorem create_table_deterministic_up_to_ties (medals : List Medal)
    (o1 o2 : List String)
    (h1 : o1.Perm (countryKeys medals)) (h2 : o2.Perm (countryKeys medals)) :
    (create_table o1 medals).Perm (create_table o2 medals) ∧
    (create_table o1 medals).map medalKey
      = (create_table o2 medals).map medalKey ∧
    (((create_table o1 medals).map medalKey).Nodup →
      create_table o1 medals = create_table o2 medals) := by
  have hrows : (o1.map (fun c => rowFor medals c)).Perm
      (o2.map (fun c => rowFor medals c)) :=
    (h1.trans h2.symm).map _
  have hp : (create_table o1 medals).Perm (create_table o2 medals) :=
    ((create_table_perm o1 medals).trans hrows).trans
      (create_table_perm o2 medals).symm
  have hs1 : ((List.insertionSort rowLe
      (o1.map (fun c => rowFor medals c))).map medalKey).Pairwise keyLe :=
    List.Pairwise.map medalKey (fun a b hab => hab)
      (List.sorted_insertionSort rowLe _)
  have hs2 : ((List.insertionSort rowLe
      (o2.map (fun c => rowFor medals c))).map medalKey).Pairwise keyLe :=
    List.Pairwise.map medalKey (fun a b hab => hab)
      (List.sorted_insertionSort rowLe _)
  have hperm12 : ((List.insertionSort rowLe
      (o1.map (fun c => rowFor medals c))).map medalKey).Perm
      ((List.insertionSort rowLe
        (o2.map (fun c => rowFor medals c))).map medalKey) :=
    (((List.perm_insertionSort _ _).trans hrows).trans
      (List.perm_insertionSort _ _).symm).map medalKey
  have heq := List.eq_of_perm_of_sorted hperm12 hs1 hs2
  have hkeys : (create_table o1 medals).map medalKey
      = (create_table o2 medals).map medalKey := by
    unfold create_table
    rw [List.map_reverse, List.map_reverse, heq]
  exact ⟨hp, hkeys, fun hnd => eq_of_perm_of_medalKey_eq hp hkeys hnd⟩

/-- Witness for C3 (amended) at the spec's example input, whose two
entrants have distinct triples. -/
theorem create_table_deterministic_up_to_ties_witness :
    (["A", "B"] : List String).Perm (countryKeys exMedals) ∧
    (["B", "A"] : List String).Perm (countryKeys exMedals) ∧
    ((create_table ["A", "B"] exMedals).Perm
        (create_table ["B", "A"] exMedals) ∧
      (create_table ["A", "B"] exMedals).map medalKey
        = (create_table ["B", "A"] exMedals).map medalKey ∧
      (((create_table ["A", "B"] exMedals).map medalKey).Nodup →
        create_table ["A", "B"] exMedals = create_table ["B", "A"] exMedals)) :=
  ⟨by decide, by decide,
   create_table_deterministic_up_to_ties exMedals ["A", "B"] ["B", "A"]
     (by decide) (by decide)⟩
